import Mathlib

/-!
# Shallow embedding of the `flock` VM (textual "flasm" dialect)

This file embeds the execution engine and assembler of `src/src/lib.rs`
(types `Program`, `ValSp`, `OpCode`, `ThreadState`, `ThreadCtx`, and the
spawner's join table from `src/src/spawner.rs`) and proves the stated
properties about them.

Modelling conventions:
* Rust `u64` (`Word`) is `Nat`; operations that can overflow take `% 2^64`
  (release-mode wrapping semantics, which is also what the spec declares
  for the arithmetic opcodes).  Theorems about single words carry a
  `w < 2^64` hypothesis where the top bit matters.
* `Vec<Word>` (the stack) is `List Word` in the same order: `push`
  appends at the end, `pop` removes the last element, `remove i` erases
  at index `i` counted from the front — exactly Rust's `Vec` indexing.
* `BTreeMap<Word, Word>` / `HashMap` maps are total functions with the
  map's observable semantics: absent keys read as `0` (memory) or `none`
  (the spawner's thread table); `insert` is pointwise update.
* Fallible Rust code (`eyre::Result`) is `Except VmError`.  A Rust
  *panic* (an unguarded arithmetic underflow, `Vec::remove` out of
  bounds, division by zero) is modelled by the distinct constructor
  `VmError.panicked`; an `eyre` error by `VmError.err`.  Both abort the
  thread and propagate to a joiner (tokio surfaces task panics to
  `handle.await` as a `JoinError`, which `Spawner::join` propagates).
* Concurrency is resolved deterministically: a forked thread is stored
  in the spawner table at `FORK` and is run when it is `JOIN`ed.  The
  recursion of the execution loop is bounded by explicit fuel; running
  out of fuel yields the model-artifact error `VmError.outOfFuel`.
-/

namespace Flock

/-- `pub type Word = u64;` -/
abbrev Word := Nat

/-- `const WORD_SIZE: Word = core::mem::size_of::<Word>() as Word;` -/
def WORD_SIZE : Word := 8

/-- `2^64`, the number of `u64` values. -/
def wordCard : Nat := 2 ^ 64

/-- Lowercase hex rendering of a word, matching Rust's `{:x}` format. -/
def hexStr (n : Nat) : String := String.mk (Nat.toDigits 16 n)

/-- Outcomes of fallible VM code.  `err` is an `eyre` error with its
message; `panicked` is a Rust panic (also carrying the panic message);
`outOfFuel` is the model artifact bounding the interpreter's recursion. -/
inductive VmError where
  | err (msg : String)
  | panicked (msg : String)
  | outOfFuel
  deriving Repr, DecidableEq

/-- `"Misaligned address: 0x{addr:x}"` -/
def misalignedMsg (addr : Word) : String := "Misaligned address: 0x" ++ hexStr addr

/-- `"Attempted to access global address in state: 0x{addr:x}"` -/
def globalInStateMsg (addr : Word) : String :=
  "Attempted to access global address in state: 0x" ++ hexStr addr

/-- `"Jump outside of program range: {addr} >= {len}"` -/
def jumpRangeMsg (addr len : Word) : String :=
  "Jump outside of program range: " ++ toString addr ++ " >= " ++ toString len

/-- `"Joined unknown thread: {tid}"` -/
def joinedUnknownMsg (tid : Word) : String := "Joined unknown thread: " ++ toString tid

/-- `enum ThreadResult { Exit(Word), Finish(Word) }` -/
inductive ThreadResult where
  | Exit (code : Word)
  | Finish (value : Word)
  deriving Repr, DecidableEq

/-- `enum Address { Local(Word), Global(Word) }` -/
inductive Address where
  | Local (a : Word)
  | Global (a : Word)
  deriving Repr, DecidableEq

/-- A `BTreeMap<Word, Word>` with its observable read semantics: a total
function, absent keys reading as `0`. -/
def Memory := Word → Word

/-- The empty memory (`Default::default()`): every key reads `0`. -/
def Memory.empty : Memory := fun _ => 0

/-- `map.insert(k, v)`: pointwise update. -/
def Memory.insert (m : Memory) (k v : Word) : Memory :=
  fun a => if a = k then v else m a

/-- `fn to_global(addr: u64) -> u64 { addr | (1 << (WORD_SIZE * 8 - 1)) }` -/
def to_global (addr : Word) : Word := addr ||| (1 <<< (WORD_SIZE * 8 - 1))

/-- `struct ThreadState { stack, memory, instruction_pointer }` -/
structure ThreadState where
  stack : List Word
  memory : Memory
  instruction_pointer : Word

/-- `ThreadState::new()` -/
def ThreadState.new : ThreadState :=
  { stack := [], memory := Memory.empty, instruction_pointer := 0 }

/-- `fn push(&mut self, v: Word) { self.stack.push(v); }` -/
def ThreadState.push (s : ThreadState) (v : Word) : ThreadState :=
  { s with stack := s.stack ++ [v] }

/-- `ThreadState::aligned_local`: alignment check, then
`addr.leading_ones() == 0` — for a `u64` that is exactly "bit 63 is
clear", i.e. `addr >> 63 == 0`; on success returns `addr / WORD_SIZE`. -/
def ThreadState.aligned_local (_s : ThreadState) (addr : Word) : Except VmError Word :=
  if addr % WORD_SIZE ≠ 0 then
    .error (.err (misalignedMsg addr))
  else if addr >>> 63 ≠ 0 then
    .error (.err (globalInStateMsg addr))
  else
    .ok (addr / WORD_SIZE)

/-- `ThreadState::read_memory` -/
def ThreadState.read_memory (s : ThreadState) (addr : Word) : Except VmError Word := do
  let a ← s.aligned_local addr
  return s.memory a

/-- `ThreadState::write_memory` -/
def ThreadState.write_memory (s : ThreadState) (addr value : Word) :
    Except VmError ThreadState := do
  let a ← s.aligned_local addr
  return { s with memory := s.memory.insert a value }

/-- `enum ValSp` -/
inductive ValSp where
  | Literal (v : Word)
  | Pop
  | PopI (i : ValSp)
  | Peek
  | Memory (addr : ValSp)
  | GlobalMemory (addr : ValSp)
  | ThreadId
  deriving Repr, DecidableEq

/-- `struct Program { ops: Vec<OpCode> }` (opcodes defined below). -/
structure ProgramOf (Op : Type) where
  ops : List Op

/-- `ThreadState::jump_to` -/
def ThreadState.jump_to {Op : Type} (s : ThreadState) (addr : Word) (program : ProgramOf Op) :
    Except VmError ThreadState :=
  if addr < program.ops.length then
    .ok { s with instruction_pointer := addr }
  else
    .error (.err (jumpRangeMsg addr program.ops.length))

/-- `Vec::pop`: removes and returns the last element, `None` when empty. -/
def vecPop (xs : List Word) : Option (Word × List Word) :=
  match xs.getLast? with
  | none => none
  | some v => some (v, xs.dropLast)

/-- `struct ThreadCtx { proc, id, state }` (the process part — program,
global memory, spawner — is passed alongside in the functions below). -/
structure ThreadCtx where
  id : Word
  state : ThreadState

/-- `ThreadCtx::aligned` (the receiver is unused by the source): ensure
`addr % WORD_SIZE == 0`, then classify by `addr >> (WORD_SIZE * 8 - 1)`. -/
def ThreadCtx.aligned (addr : Word) : Except VmError Address :=
  if addr % WORD_SIZE ≠ 0 then
    .error (.err (misalignedMsg addr))
  else if addr >>> (WORD_SIZE * 8 - 1) = 0 then
    .ok (.Local addr)
  else
    .ok (.Global addr)

/-- `ThreadCtx::read_memory`: classify, then read the thread-local map
(via `ThreadState::read_memory`) or the process-global map. -/
def ThreadCtx.read_memory (globals : Memory) (ctx : ThreadCtx) (addr : Word) :
    Except VmError Word := do
  match ← ThreadCtx.aligned addr with
  | .Local a => ctx.state.read_memory a
  | .Global a => return globals a

/-- `ThreadCtx::write_memory` -/
def ThreadCtx.write_memory (globals : Memory) (ctx : ThreadCtx) (addr val : Word) :
    Except VmError (ThreadCtx × Memory) := do
  match ← ThreadCtx.aligned addr with
  | .Local a => do
      let s ← ctx.state.write_memory a val
      return ({ ctx with state := s }, globals)
  | .Global a => return (ctx, globals.insert a val)

/-- Panic message of a debug-build `usize` subtraction underflow (the
release build instead panics inside `Vec::remove` with an
index-out-of-bounds message; either way the thread panics). -/
def subOverflowMsg : String := "attempt to subtract with overflow"

/-- `ThreadCtx::get`: evaluate a `ValSp` against the thread, possibly
mutating its stack.  Global memory is read-only here.

The `PopI` arm mirrors the source exactly:
`let index = self.state.stack.len() - i - 1; self.state.stack.remove(index)` —
there is no bounds check, so for `i ≥ stack.len()` the subtraction
underflows and the code *panics* (it does not return an `eyre` error). -/
def ThreadCtx.get (globals : Memory) : ValSp → ThreadCtx → Except VmError (Word × ThreadCtx)
  | .Literal v, ctx => .ok (v, ctx)
  | .Pop, ctx =>
    match vecPop ctx.state.stack with
    | some (v, rest) => .ok (v, { ctx with state := { ctx.state with stack := rest } })
    | none => .error (.err "Pop from empty stack")
  | .PopI i, ctx => do
    let (i, ctx) ← ThreadCtx.get globals i ctx
    if i < ctx.state.stack.length then
      let index := ctx.state.stack.length - i - 1
      .ok (ctx.state.stack.getD index 0,
        { ctx with state := { ctx.state with stack := ctx.state.stack.eraseIdx index } })
    else
      .error (.panicked subOverflowMsg)
  | .Peek, ctx =>
    match ctx.state.stack.getLast? with
    | some v => .ok (v, ctx)
    | none => .error (.err "Peek empty stack")
  | .Memory addr, ctx => do
    let (addr, ctx) ← ThreadCtx.get globals addr ctx
    let v ← ctx.read_memory globals addr
    return (v, ctx)
  | .GlobalMemory addr, ctx => do
    let (addr, ctx) ← ThreadCtx.get globals addr ctx
    let v ← ctx.read_memory globals (to_global addr)
    return (v, ctx)
  | .ThreadId, ctx => .ok (ctx.id, ctx)

/-- `enum OpCode` as generated by the `op_codes!` macro invocation. -/
inductive OpCode where
  | NOP (v : ValSp)
  | PUSH (v : ValSp)
  | STORE (addr v : ValSp)
  | STORE_GLOBAL (addr v : ValSp)
  | LOAD (addr : ValSp)
  | ADD (a b : ValSp)
  | SUB (a b : ValSp)
  | MUL (a b : ValSp)
  | DIV (a b : ValSp)
  | SHIFT_LEFT (a b : ValSp)
  | JUMP (addr : ValSp)
  | JUMP_EQ (a b addr : ValSp)
  | FORK (addr : ValSp)
  | JOIN (tid : ValSp)
  | THREAD_FINISH (v : ValSp)
  | EXIT (v : ValSp)
  | ASSERT_EQ (a b : ValSp)
  | DEBUG
  deriving Repr, DecidableEq

/-- `Program` for the flasm opcode set. -/
abbrev Program := ProgramOf OpCode

/-- Modelled from the spec: `LocalSpawner` is referenced by
`execute_program` in `src/src/lib.rs` but its definition is absent from
`src/` (the `spawner.rs` present is the placement-capable snapshot).
Per §4.7 the local implementation allocates ids from a monotonically
increasing counter and keeps a map `{id → handle}` of in-flight threads;
`join` removes the handle (exactly as `Spawner::join` in
`src/src/spawner.rs` does with its `HashMap`).  A handle is modelled as
the spawned `ThreadCtx`, run when it is joined. -/
structure LocalSpawner where
  counter : Word
  threads : Word → Option ThreadCtx

/-- `LocalSpawner::new()` -/
def LocalSpawner.new : LocalSpawner :=
  { counter := 0, threads := fun _ => none }

/-- Modelled from the spec: `spawn` allocates the next counter value as
the thread id (wrapping `u64` increment) and registers the thread's
context under that id. -/
def LocalSpawner.spawn (sp : LocalSpawner) (state : ThreadState) : Word × LocalSpawner :=
  let id := sp.counter
  (id, { counter := (sp.counter + 1) % wordCard,
         threads := fun t => if t = id then some { id := id, state := state } else sp.threads t })

/-- The handle-table half of `Spawner::join` (`src/src/spawner.rs`):
`threads.remove(&tid)`, `None` when the id is unknown. -/
def LocalSpawner.removeThread (sp : LocalSpawner) (tid : Word) :
    Option (ThreadCtx × LocalSpawner) :=
  match sp.threads tid with
  | none => none
  | some ctx => some (ctx, { sp with threads := fun t => if t = tid then none else sp.threads t })

/-- The mutable process-level state threaded through execution: the
global memory of `ProcessCtx` and the spawner's handle table. -/
structure Vm where
  globals : Memory
  spawner : LocalSpawner

/-- `OpCode::execute` with the `JOIN` child-execution recursion
abstracted as the function argument `recur` (this lets the execution
loop below be structurally recursive on its fuel).  Evaluates the
operand `ValSp`s left to right, then runs the opcode body.  Returns
`none` for "continue", `some r` to end the thread, or an error. -/
def OpCode.executeWith
    (recur : Vm → ProgramOf OpCode → ThreadCtx → Except VmError (ThreadResult × Vm))
    (vm : Vm) (prog : ProgramOf OpCode) :
    OpCode → ThreadCtx → Except VmError (Option ThreadResult × ThreadCtx × Vm)
  | .NOP v, ctx => do
    let (_, ctx) ← ThreadCtx.get vm.globals v ctx
    .ok (none, ctx, vm)
  | .PUSH v, ctx => do
    let (v, ctx) ← ThreadCtx.get vm.globals v ctx
    .ok (none, { ctx with state := ctx.state.push v }, vm)
  | .STORE addr v, ctx => do
    let (addr, ctx) ← ThreadCtx.get vm.globals addr ctx
    let (v, ctx) ← ThreadCtx.get vm.globals v ctx
    let (ctx, globals) ← ctx.write_memory vm.globals addr v
    .ok (none, ctx, { vm with globals := globals })
  | .STORE_GLOBAL addr v, ctx => do
    let (addr, ctx) ← ThreadCtx.get vm.globals addr ctx
    let (v, ctx) ← ThreadCtx.get vm.globals v ctx
    let (ctx, globals) ← ctx.write_memory vm.globals (to_global addr) v
    .ok (none, ctx, { vm with globals := globals })
  | .LOAD addr, ctx => do
    let (addr, ctx) ← ThreadCtx.get vm.globals addr ctx
    let v ← ctx.read_memory vm.globals addr
    .ok (none, { ctx with state := ctx.state.push v }, vm)
  | .ADD a b, ctx => do
    let (a, ctx) ← ThreadCtx.get vm.globals a ctx
    let (b, ctx) ← ThreadCtx.get vm.globals b ctx
    .ok (none, { ctx with state := ctx.state.push ((a + b) % wordCard) }, vm)
  | .SUB a b, ctx => do
    let (a, ctx) ← ThreadCtx.get vm.globals a ctx
    let (b, ctx) ← ThreadCtx.get vm.globals b ctx
    .ok (none, { ctx with state := ctx.state.push ((wordCard + a - b) % wordCard) }, vm)
  | .MUL a b, ctx => do
    let (a, ctx) ← ThreadCtx.get vm.globals a ctx
    let (b, ctx) ← ThreadCtx.get vm.globals b ctx
    .ok (none, { ctx with state := ctx.state.push ((a * b) % wordCard) }, vm)
  | .DIV a b, ctx => do
    let (a, ctx) ← ThreadCtx.get vm.globals a ctx
    let (b, ctx) ← ThreadCtx.get vm.globals b ctx
    if b = 0 then
      .error (.panicked "attempt to divide by zero")
    else
      .ok (none, { ctx with state := ctx.state.push (a / b) }, vm)
  | .SHIFT_LEFT a b, ctx => do
    let (a, ctx) ← ThreadCtx.get vm.globals a ctx
    let (b, ctx) ← ThreadCtx.get vm.globals b ctx
    if b < 64 then
      .ok (none, { ctx with state := ctx.state.push ((a <<< b) % wordCard) }, vm)
    else
      .error (.panicked "attempt to shift left with overflow")
  | .JUMP addr, ctx => do
    let (addr, ctx) ← ThreadCtx.get vm.globals addr ctx
    let s ← ctx.state.jump_to addr prog
    .ok (none, { ctx with state := s }, vm)
  | .JUMP_EQ a b addr, ctx => do
    let (a, ctx) ← ThreadCtx.get vm.globals a ctx
    let (b, ctx) ← ThreadCtx.get vm.globals b ctx
    let (addr, ctx) ← ThreadCtx.get vm.globals addr ctx
    if a = b then do
      let s ← ctx.state.jump_to addr prog
      .ok (none, { ctx with state := s }, vm)
    else
      .ok (none, ctx, vm)
  | .FORK addr, ctx => do
    let (addr, ctx) ← ThreadCtx.get vm.globals addr ctx
    let fork_state := ctx.state.push ctx.id
    let fork_state ← fork_state.jump_to addr prog
    let (child_id, spawner) := vm.spawner.spawn fork_state
    .ok (none, { ctx with state := ctx.state.push child_id }, { vm with spawner := spawner })
  | .JOIN tid, ctx => do
    let (tid, ctx) ← ThreadCtx.get vm.globals tid ctx
    match vm.spawner.removeThread tid with
    | none => .error (.err (joinedUnknownMsg tid))
    | some (child, spawner) =>
      match recur { vm with spawner := spawner } prog child with
      | .error e => .error e
      | .ok (.Exit e, vm) => .ok (some (.Exit e), ctx, vm)
      | .ok (.Finish v, vm) => .ok (none, { ctx with state := ctx.state.push v }, vm)
  | .THREAD_FINISH v, ctx => do
    let (v, ctx) ← ThreadCtx.get vm.globals v ctx
    .ok (some (.Finish v), ctx, vm)
  | .EXIT v, ctx => do
    let (v, ctx) ← ThreadCtx.get vm.globals v ctx
    .ok (some (.Exit v), ctx, vm)
  | .ASSERT_EQ a b, ctx => do
    let (a, ctx) ← ThreadCtx.get vm.globals a ctx
    let (b, ctx) ← ThreadCtx.get vm.globals b ctx
    if a = b then
      .ok (none, ctx, vm)
    else
      .error (.err ("Expected " ++ toString a ++ " to equal " ++ toString b))
  | .DEBUG, ctx =>
    .ok (none, ctx, vm)

/-- `ThreadCtx::execute`: fetch the opcode at the instruction pointer
(`Exit(0)` when past the end), increment the pointer, run the opcode,
loop.  Recursion is bounded by `fuel`, consumed one unit per executed
opcode (and across a `JOIN`ed child's execution). -/
def ThreadCtx.execute : Nat → Vm → ProgramOf OpCode → ThreadCtx →
    Except VmError (ThreadResult × Vm)
  | 0, _, _, _ => .error .outOfFuel
  | Nat.succ fuel, vm, prog, ctx =>
    match prog.ops.get? ctx.state.instruction_pointer with
    | none => .ok (.Exit 0, vm)
    | some op =>
      let ctx :=
        { ctx with state :=
          { ctx.state with instruction_pointer := ctx.state.instruction_pointer + 1 } }
      match OpCode.executeWith (ThreadCtx.execute fuel) vm prog op ctx with
      | .error e => .error e
      | .ok (some r, _, vm) => .ok (r, vm)
      | .ok (none, ctx, vm) => ThreadCtx.execute fuel vm prog ctx

/-- `OpCode::execute` proper: the `JOIN` recursion runs the child with
the given fuel. -/
def OpCode.execute (fuel : Nat) (vm : Vm) (prog : Program) (op : OpCode) (ctx : ThreadCtx) :
    Except VmError (Option ThreadResult × ThreadCtx × Vm) :=
  OpCode.executeWith (ThreadCtx.execute fuel) vm prog op ctx

/-- `ProcessCtx::join` backed by the local spawner: remove the handle
(unknown id fails), then await — i.e. run — the thread. -/
def processJoin (fuel : Nat) (vm : Vm) (prog : Program) (tid : Word) :
    Except VmError (ThreadResult × Vm) :=
  match vm.spawner.removeThread tid with
  | none => .error (.err (joinedUnknownMsg tid))
  | some (child, spawner) => ThreadCtx.execute fuel { vm with spawner := spawner } prog child

/-- `HostCtx::execute`: create the process with empty global memory,
spawn the root thread from `ThreadState::new()`, join it, and map
`Exit(code) => code`, `Finish(value) => value`. -/
def HostCtx.execute (fuel : Nat) (prog : Program) : Except VmError Word :=
  let (root_id, spawner) := LocalSpawner.new.spawn ThreadState.new
  let vm : Vm := { globals := Memory.empty, spawner := spawner }
  match processJoin fuel vm prog root_id with
  | .error e => .error e
  | .ok (.Exit code, _) => .ok code
  | .ok (.Finish value, _) => .ok value

/-!
## The assembler (`Program::parse`, `ValSp::parse`)

Tokens and lines are `List Char` (a `&str` of the source).  The `eyre`
`.context(...)` breadcrumbs that the source wraps around propagated
errors are omitted: only the innermost error message is kept.
-/

/-- `str::strip_prefix`: `dropPre p s = some r` iff `s = p ++ r`. -/
def dropPre : List Char → List Char → Option (List Char)
  | [], s => some s
  | _ :: _, [] => none
  | p :: ps, c :: cs => if c = p then dropPre ps cs else none

/-- `str::strip_suffix("]")`. -/
def stripRBracket (s : List Char) : Option (List Char) :=
  match s.reverse with
  | ']' :: rest => some rest.reverse
  | _ => none

/-- `fn strip_square_braces` -/
def strip_square_braces (s : List Char) : Except VmError (Option (List Char)) :=
  match dropPre ['['] s with
  | none => .ok none
  | some without_first =>
    match stripRBracket without_first with
    | none => .error (.err ("Expected ']' at end of: " ++ String.mk s))
    | some result => .ok (some result)

/-- `fn indexed_expr` -/
def indexed_expr (expr s : List Char) : Except VmError (Option (Option (List Char))) :=
  match dropPre expr s with
  | none => .ok none
  | some with_expr =>
    match strip_square_braces with_expr with
    | .error e => .error e
    | .ok none => .ok (some none)
    | .ok (some in_braces) => .ok (some (some in_braces))

/-- Value of one ASCII digit as `char::to_digit` sees it (`0-9`, `a-f`,
`A-F`). -/
def digitVal (c : Char) : Option Nat :=
  if '0' ≤ c ∧ c ≤ '9' then some (c.toNat - '0'.toNat)
  else if 'a' ≤ c ∧ c ≤ 'f' then some (c.toNat - 'a'.toNat + 10)
  else if 'A' ≤ c ∧ c ≤ 'F' then some (c.toNat - 'A'.toNat + 10)
  else none

/-- Accumulating digit parser: all characters must be digits below
`radix`. -/
def digitsValAux (radix : Nat) (acc : Nat) : List Char → Option Nat
  | [] => some acc
  | c :: rest =>
    match digitVal c with
    | some d => if d < radix then digitsValAux radix (acc * radix + d) rest else none
    | none => none

/-- Digit-string value; `none` on an empty string or a bad digit. -/
def digitsVal (radix : Nat) : List Char → Option Nat
  | [] => none
  | s => digitsValAux radix 0 s

/-- Rust's integer parsers allow one optional leading `+`. -/
def stripPlus : List Char → List Char
  | '+' :: rest => rest
  | s => s

/-- Rust's `u64::from_str` / `u64::from_str_radix`: one optional leading
`+`, then a nonempty digit string; values `≥ 2^64` fail (overflow). -/
def rustParseU64 (radix : Nat) (s : List Char) : Option Word :=
  match digitsVal radix (stripPlus s) with
  | none => none
  | some n => if n < wordCard then some n else none

/-- `fn parse_literal` -/
def parse_literal (s : List Char) : Except VmError Word :=
  match dropPre ['0', 'x'] s with
  | some hex =>
    match rustParseU64 16 hex with
    | some v => .ok v
    | none => .error (.err ("Parsing as hex: " ++ String.mk hex))
  | none =>
    match rustParseU64 10 s with
    | some v => .ok v
    | none => .error (.err ("Could not parse as literal value: " ++ String.mk s))

/-- The label table built by pass one of `Program::parse`
(a `HashMap<&str, u64>`; keys are unique by construction). -/
abbrev Labels := List (List Char × Word)

/-- `HashMap::get` on the label table. -/
def lookupLabel : Labels → List Char → Option Word
  | [], _ => none
  | (k, v) :: rest, name => if k = name then some v else lookupLabel rest name

theorem dropPre_length {p s r : List Char} (h : dropPre p s = some r) :
    s.length = p.length + r.length := by
  induction p generalizing s with
  | nil => simp [dropPre] at h; simp [h]
  | cons c ps ih =>
    cases s with
    | nil => simp [dropPre] at h
    | cons c' cs =>
      simp only [dropPre] at h
      split at h
      · have := ih h
        simp [this]; omega
      · exact absurd h (by simp)

theorem stripRBracket_length {s r : List Char} (h : stripRBracket s = some r) :
    s.length = r.length + 1 := by
  unfold stripRBracket at h
  split at h
  · rename_i rest heq
    have hlen : s.reverse.length = rest.length + 1 := by rw [heq]; simp
    simp at hlen
    cases h
    simp [hlen]
  · exact absurd h (by simp)

theorem strip_square_braces_length {s r : List Char}
    (h : strip_square_braces s = .ok (some r)) : s.length = r.length + 2 := by
  unfold strip_square_braces at h
  split at h
  · exact absurd h (by simp)
  · rename_i without_first heq
    have h1 := dropPre_length heq
    split at h
    · exact absurd h (by simp)
    · rename_i result heq2
      have h2 := stripRBracket_length heq2
      cases h
      simp at h1
      omega

theorem indexed_expr_length {expr s r : List Char}
    (h : indexed_expr expr s = .ok (some (some r))) :
    s.length = expr.length + r.length + 2 := by
  unfold indexed_expr at h
  split at h
  · exact absurd h (by simp)
  · rename_i with_expr heq
    have h1 := dropPre_length heq
    split at h
    · exact absurd h (by simp)
    · exact absurd h (by simp)
    · rename_i in_braces heq2
      have h2 := strip_square_braces_length heq2
      cases h
      omega

/-- `ValSp::parse`: label form, then `$pop`, `$peek`, `$mem`, `$gmem`,
`$tid`, and finally numeric literals, in the source's order.  Note that
`indexed_expr` matches its token as a *prefix*: any token starting with
`$pop` whose remainder does not start with `[` parses as `Pop`.

The source recurses on the strictly shorter bracket contents; the model
bounds that recursion with explicit fuel (any `fuel ≥ s.length` is
enough, by `indexed_expr_length`). -/
def ValSp.parse (labels : Labels) : Nat → List Char → Except VmError ValSp
  | 0, _ => .error .outOfFuel
  | Nat.succ fuel, s =>
    match dropPre [':'] s with
    | some label =>
      match lookupLabel labels label with
      | some v => .ok (.Literal v)
      | none => .error (.err ("Unknown label: " ++ String.mk label))
    | none =>
      match indexed_expr "$pop".toList s with
      | .error e => .error e
      | .ok (some none) => .ok .Pop
      | .ok (some (some i)) =>
        match ValSp.parse labels fuel i with
        | .error e => .error e
        | .ok inner => .ok (.PopI inner)
      | .ok none =>
        if s = "$peek".toList then .ok .Peek
        else
          match indexed_expr "$mem".toList s with
          | .error e => .error e
          | .ok (some none) => .error (.err "$mem requires index")
          | .ok (some (some addr)) =>
            match ValSp.parse labels fuel addr with
            | .error e => .error e
            | .ok inner => .ok (.Memory inner)
          | .ok none =>
            match indexed_expr "$gmem".toList s with
            | .error e => .error e
            | .ok (some none) => .error (.err "$gmem requires index")
            | .ok (some (some addr)) =>
              match ValSp.parse labels fuel addr with
              | .error e => .error e
              | .ok inner => .ok (.GlobalMemory inner)
            | .ok none =>
              if s = "$tid".toList then .ok .ThreadId
              else
                match parse_literal s with
                | .ok v => .ok (.Literal v)
                | .error e => .error e

/-- Characters of a line before its first `#` (`line.split_once("#")`,
keeping the part before the comment). -/
def beforeHash : List Char → List Char
  | [] => []
  | c :: rest => if c = '#' then [] else c :: beforeHash rest

/-- `str::trim`. -/
def trimChars (s : List Char) : List Char :=
  ((s.dropWhile Char.isWhitespace).reverse.dropWhile Char.isWhitespace).reverse

/-- The `relevant_lines` of `Program::parse`: comments stripped, lines
trimmed, empties dropped. -/
def relevantLines (lines : List (List Char)) : List (List Char) :=
  (lines.map fun l => trimChars (beforeHash l)).filter fun l => l ≠ []

/-- Is this relevant line a label declaration (`line.strip_prefix(":")`
succeeds)? -/
def isLabelLine (line : List Char) : Bool :=
  (dropPre [':'] line).isSome

/-- Number of opcode (non-label) lines in a list of relevant lines. -/
def countOps (lines : List (List Char)) : Nat :=
  (lines.filter fun l => !isLabelLine l).length

/-- Pass one of `Program::parse`: walk the relevant lines; a line
starting `:` records `label → ops_seen` (failing on a duplicate:
`HashMap::insert` returned a previous value and the `ensure!` fails),
any other line increments `ops_seen`. -/
def buildLabelsAux : List (List Char) → Word → Labels → Except VmError Labels
  | [], _, labels => .ok labels
  | line :: rest, ops_seen, labels =>
    match dropPre [':'] line with
    | some label =>
      match lookupLabel labels label with
      | some _ => .error (.err ("Duplicate label: " ++ String.mk label))
      | none => buildLabelsAux rest ops_seen ((label, ops_seen) :: labels)
    | none => buildLabelsAux rest (ops_seen + 1) labels

/-- The label table of a program given as its list of source lines
(`s.lines()` has already split the text at newlines). -/
def buildLabels (lines : List (List Char)) : Except VmError Labels :=
  buildLabelsAux (relevantLines lines) 0 []

/-!
## General lemmas about the embedding
-/

/-- A default `Vm` with empty global memory and a fresh spawner, used to
instantiate theorems at concrete inputs. -/
def vm0 : Vm := { globals := Memory.empty, spawner := LocalSpawner.new }

/-- Evaluating a `ValSp` never changes the thread's id. -/
theorem ThreadCtx.get_id {globals : Memory} :
    ∀ (e : ValSp) (ctx : ThreadCtx) (v : Word) (ctx' : ThreadCtx),
      ThreadCtx.get globals e ctx = .ok (v, ctx') → ctx'.id = ctx.id := by
  intro e
  induction e with
  | Literal w =>
    intro ctx v ctx' h
    simp only [ThreadCtx.get, Except.ok.injEq, Prod.mk.injEq] at h
    rw [← h.2]
  | Pop =>
    intro ctx v ctx' h
    simp only [ThreadCtx.get] at h
    split at h
    · simp only [Except.ok.injEq, Prod.mk.injEq] at h
      rw [← h.2]
    · exact absurd h (by simp)
  | PopI e ih =>
    intro ctx v ctx' h
    simp only [ThreadCtx.get, bind, Except.bind] at h
    split at h
    · exact absurd h (by simp)
    · rename_i p heq
      split at h
      · simp only [Except.ok.injEq, Prod.mk.injEq] at h
        rw [← h.2]
        exact ih ctx p.1 p.2 heq
      · exact absurd h (by simp)
  | Peek =>
    intro ctx v ctx' h
    simp only [ThreadCtx.get] at h
    split at h
    · simp only [Except.ok.injEq, Prod.mk.injEq] at h
      rw [← h.2]
    · exact absurd h (by simp)
  | Memory e ih =>
    intro ctx v ctx' h
    simp only [ThreadCtx.get, bind, Except.bind, pure, Except.pure] at h
    split at h
    · exact absurd h (by simp)
    · rename_i p heq
      split at h
      · exact absurd h (by simp)
      · simp only [Except.ok.injEq, Prod.mk.injEq] at h
        rw [← h.2]
        exact ih ctx p.1 p.2 heq
  | GlobalMemory e ih =>
    intro ctx v ctx' h
    simp only [ThreadCtx.get, bind, Except.bind, pure, Except.pure] at h
    split at h
    · exact absurd h (by simp)
    · rename_i p heq
      split at h
      · exact absurd h (by simp)
      · simp only [Except.ok.injEq, Prod.mk.injEq] at h
        rw [← h.2]
        exact ih ctx p.1 p.2 heq
  | ThreadId =>
    intro ctx v ctx' h
    simp only [ThreadCtx.get, Except.ok.injEq, Prod.mk.injEq] at h
    rw [← h.2]

/-- For a `u64`, the top bit as the source tests it (`a >> 63`) agrees
with `Nat.testBit a 63`. -/
theorem shiftRight63_testBit (a : Word) (ha : a < wordCard) :
    a >>> 63 = if a.testBit 63 then 1 else 0 := by
  rw [Nat.testBit_to_div_mod, Nat.shiftRight_eq_div_pow]
  have h2 : a / 2 ^ 63 < 2 := by
    apply Nat.div_lt_of_lt_mul
    have : (2 : Nat) ^ 63 * 2 = 2 ^ 64 := by norm_num
    rw [this]
    simpa [wordCard] using ha
  interval_cases h : a / 2 ^ 63 <;> simp

/-!
## The claims
-/

/-- **C4.** For every Word address `a` used in a memory access: if `a`
is not a multiple of 8 the access always fails with
"Misaligned address: 0x…" (through the classifying path and through the
thread-local path alike); otherwise `a` with bit 63 clear is classified
`Local(a)` and `a` with bit 63 set is classified `Global(a)`; and any
read or write of an address with bit 63 set through the
thread-local-only path (`ThreadState::read_memory` /
`ThreadState::write_memory`, which go through `aligned_local`) fails —
with "Attempted to access global address in state" when the address is
aligned (a misaligned one fails the alignment check first). -/
theorem C4_address_discipline (a : Word) (ha : a < wordCard) :
    (a % 8 ≠ 0 →
      ThreadCtx.aligned a = .error (.err (misalignedMsg a)) ∧
      ∀ s : ThreadState, s.aligned_local a = .error (.err (misalignedMsg a))) ∧
    (a % 8 = 0 → a.testBit 63 = false → ThreadCtx.aligned a = .ok (.Local a)) ∧
    (a % 8 = 0 → a.testBit 63 = true → ThreadCtx.aligned a = .ok (.Global a)) ∧
    (a.testBit 63 = true → ∀ s : ThreadState,
      (∃ m, s.read_memory a = .error (.err m)) ∧
      (∀ v, ∃ m, s.write_memory a v = .error (.err m)) ∧
      (a % 8 = 0 →
        s.read_memory a = .error (.err (globalInStateMsg a)) ∧
        ∀ v, s.write_memory a v = .error (.err (globalInStateMsg a)))) := by
  have hbit := shiftRight63_testBit a ha
  refine ⟨?_, ?_, ?_, ?_⟩
  · intro hmis
    constructor
    · simp [ThreadCtx.aligned, WORD_SIZE, hmis]
    · intro s
      simp [ThreadState.aligned_local, WORD_SIZE, hmis]
  · intro hal hb
    rw [hb] at hbit
    simp [ThreadCtx.aligned, WORD_SIZE, hal, hbit]
  · intro hal hb
    rw [hb] at hbit
    simp [ThreadCtx.aligned, WORD_SIZE, hal, hbit]
  · intro hb s
    rw [hb] at hbit
    simp only [if_true] at hbit
    by_cases hal : a % 8 = 0
    · have hloc : s.aligned_local a = .error (.err (globalInStateMsg a)) := by
        simp [ThreadState.aligned_local, WORD_SIZE, hal, hbit]
      have hr : s.read_memory a = .error (.err (globalInStateMsg a)) := by
        simp [ThreadState.read_memory, hloc, bind, Except.bind]
      have hw : ∀ v, s.write_memory a v = .error (.err (globalInStateMsg a)) := by
        intro v
        simp [ThreadState.write_memory, hloc, bind, Except.bind]
      exact ⟨⟨_, hr⟩, fun v => ⟨_, hw v⟩, fun _ => ⟨hr, hw⟩⟩
    · have hloc : s.aligned_local a = .error (.err (misalignedMsg a)) := by
        simp [ThreadState.aligned_local, WORD_SIZE, hal]
      have hr : s.read_memory a = .error (.err (misalignedMsg a)) := by
        simp [ThreadState.read_memory, hloc, bind, Except.bind]
      have hw : ∀ v, s.write_memory a v = .error (.err (misalignedMsg a)) := by
        intro v
        simp [ThreadState.write_memory, hloc, bind, Except.bind]
      exact ⟨⟨_, hr⟩, fun v => ⟨_, hw v⟩, fun h => absurd h hal⟩

/-- Witness for C4 at concrete addresses: `16` is aligned local,
`2^63 + 8` is aligned global and is rejected by the thread-local path,
`7` is misaligned. -/
theorem C4_address_discipline_witness :
    ThreadCtx.aligned 16 = .ok (.Local 16) ∧
    ThreadCtx.aligned (2 ^ 63 + 8) = .ok (.Global (2 ^ 63 + 8)) ∧
    ThreadState.new.read_memory (2 ^ 63 + 8) = .error (.err (globalInStateMsg (2 ^ 63 + 8))) ∧
    ThreadCtx.aligned 7 = .error (.err (misalignedMsg 7)) :=
  ⟨(C4_address_discipline 16 (by norm_num [wordCard])).2.1 (by norm_num) (by decide),
   (C4_address_discipline (2 ^ 63 + 8) (by norm_num [wordCard])).2.2.1 (by norm_num)
     (by norm_num [Nat.testBit_to_div_mod]),
   (((C4_address_discipline (2 ^ 63 + 8) (by norm_num [wordCard])).2.2.2
     (by norm_num [Nat.testBit_to_div_mod]) ThreadState.new).2.2 (by norm_num)).1,
   ((C4_address_discipline 7 (by norm_num [wordCard])).1 (by norm_num)).1⟩

/-- **C3.** The in-range half of the claim holds: when the index
evaluates to `i < stack.len()`, `PopI(e)` removes and returns the
element at position `stack.len() − 1 − i`.  The error half is a code
bug: for `i ≥ stack.len()` the source computes
`self.state.stack.len() - i - 1` in `usize` with no guard and *panics*
(debug: subtraction overflow; release: `Vec::remove` index out of
bounds) instead of returning the execution error
"Pop from empty stack" that the spec prescribes; the second conjunct
evaluates the code at the failing input (empty stack, `PopI(Literal 0)`). -/
theorem C3_popi_eval :
    (∀ (globals : Memory) (ctx : ThreadCtx) (e : ValSp) (i : Word) (ctx' : ThreadCtx),
      ThreadCtx.get globals e ctx = .ok (i, ctx') →
      i < ctx'.state.stack.length →
      ThreadCtx.get globals (.PopI e) ctx =
        .ok (ctx'.state.stack.getD (ctx'.state.stack.length - i - 1) 0,
          { ctx' with state := { ctx'.state with
            stack := ctx'.state.stack.eraseIdx (ctx'.state.stack.length - i - 1) } })) ∧
    ThreadCtx.get Memory.empty (.PopI (.Literal 0)) ⟨0, ThreadState.new⟩
      = .error (.panicked subOverflowMsg) ∧
    ThreadCtx.get Memory.empty (.PopI (.Literal 0)) ⟨0, ThreadState.new⟩
      ≠ .error (.err "Pop from empty stack") := by
  have h0 : ThreadCtx.get Memory.empty (.PopI (.Literal 0)) ⟨0, ThreadState.new⟩
      = .error (.panicked subOverflowMsg) := rfl
  refine ⟨?_, h0, ?_⟩
  case refine_2 =>
    intro hcontra
    rw [h0] at hcontra
    exact VmError.noConfusion (Except.error.inj hcontra)
  intro globals ctx e i ctx' heval hlt
  simp only [ThreadCtx.get, bind, Except.bind, heval]
  simp [hlt]

/-- Witness for C3: stack `[10, 20, 30]`, index `1` — removes and
returns `20`, the element at position `3 − 1 − 1` from the front. -/
theorem C3_popi_eval_witness :
    ThreadCtx.get Memory.empty (.PopI (.Literal 1)) ⟨0, { ThreadState.new with stack := [10, 20, 30] }⟩
      = .ok (20, ⟨0, { ThreadState.new with stack := [10, 30] }⟩) :=
  C3_popi_eval.1 Memory.empty ⟨0, { ThreadState.new with stack := [10, 20, 30] }⟩
    (.Literal 1) 1 ⟨0, { ThreadState.new with stack := [10, 20, 30] }⟩ rfl (by simp)

/-- **C7.** (a) If the instruction pointer at fetch time is at or past
the program's opcode count, the thread terminates with `Exit(0)` (given
any fuel to take the step).  (b) `jump_to` an address `≥` the opcode
count fails with "Jump outside of program range", and so do `JUMP`, a
taken `JUMP_EQ` (operands evaluating to equal words), and `FORK`
directed at such a target. -/
theorem C7_fetch_past_end_and_jump_range :
    (∀ (fuel : Nat) (vm : Vm) (prog : Program) (ctx : ThreadCtx),
      prog.ops.length ≤ ctx.state.instruction_pointer →
      ThreadCtx.execute (fuel + 1) vm prog ctx = .ok (.Exit 0, vm)) ∧
    (∀ (prog : Program) (s : ThreadState) (addr : Word),
      prog.ops.length ≤ addr →
      s.jump_to addr prog = .error (.err (jumpRangeMsg addr prog.ops.length))) ∧
    (∀ (fuel : Nat) (vm : Vm) (prog : Program) (ctx ctx' : ThreadCtx) (e : ValSp) (addr : Word),
      ThreadCtx.get vm.globals e ctx = .ok (addr, ctx') →
      prog.ops.length ≤ addr →
      OpCode.execute fuel vm prog (.JUMP e) ctx =
        .error (.err (jumpRangeMsg addr prog.ops.length))) ∧
    (∀ (fuel : Nat) (vm : Vm) (prog : Program) (ctx ctx₁ ctx₂ ctx₃ : ThreadCtx)
        (ea eb eaddr : ValSp) (a addr : Word),
      ThreadCtx.get vm.globals ea ctx = .ok (a, ctx₁) →
      ThreadCtx.get vm.globals eb ctx₁ = .ok (a, ctx₂) →
      ThreadCtx.get vm.globals eaddr ctx₂ = .ok (addr, ctx₃) →
      prog.ops.length ≤ addr →
      OpCode.execute fuel vm prog (.JUMP_EQ ea eb eaddr) ctx =
        .error (.err (jumpRangeMsg addr prog.ops.length))) ∧
    (∀ (fuel : Nat) (vm : Vm) (prog : Program) (ctx ctx' : ThreadCtx) (e : ValSp) (addr : Word),
      ThreadCtx.get vm.globals e ctx = .ok (addr, ctx') →
      prog.ops.length ≤ addr →
      OpCode.execute fuel vm prog (.FORK e) ctx =
        .error (.err (jumpRangeMsg addr prog.ops.length))) := by
  have hjump : ∀ (prog : Program) (s : ThreadState) (addr : Word),
      prog.ops.length ≤ addr →
      s.jump_to addr prog = .error (.err (jumpRangeMsg addr prog.ops.length)) := by
    intro prog s addr hle
    simp [ThreadState.jump_to, Nat.not_lt.mpr hle]
  refine ⟨?_, hjump, ?_, ?_, ?_⟩
  · intro fuel vm prog ctx hle
    have hnone : prog.ops[ctx.state.instruction_pointer]? = none := by
      rw [List.getElem?_eq_none_iff]
      exact hle
    simp [ThreadCtx.execute, hnone]
  · intro fuel vm prog ctx ctx' e addr heval hle
    simp [OpCode.execute, OpCode.executeWith, bind, Except.bind, heval, hjump prog _ addr hle]
  · intro fuel vm prog ctx ctx₁ ctx₂ ctx₃ ea eb eaddr a addr ha hb haddr hle
    simp [OpCode.execute, OpCode.executeWith, bind, Except.bind, ha, hb, haddr,
      hjump prog _ addr hle]
  · intro fuel vm prog ctx ctx' e addr heval hle
    simp [OpCode.execute, OpCode.executeWith, bind, Except.bind, heval,
      hjump prog _ addr hle]

/-- Witness for C7: the empty program exits `Exit(0)` at once, and a
`JUMP 5` in a one-opcode program fails with the range error. -/
theorem C7_fetch_past_end_and_jump_range_witness :
    ThreadCtx.execute 1 vm0 ⟨[]⟩ ⟨0, ThreadState.new⟩ = .ok (.Exit 0, vm0) ∧
    OpCode.execute 0 vm0 ⟨[.NOP (.Literal 0)]⟩ (.JUMP (.Literal 5)) ⟨0, ThreadState.new⟩ =
      .error (.err (jumpRangeMsg 5 1)) :=
  ⟨C7_fetch_past_end_and_jump_range.1 0 vm0 ⟨[]⟩ ⟨0, ThreadState.new⟩ (by simp),
   C7_fetch_past_end_and_jump_range.2.2.1 0 vm0 ⟨[.NOP (.Literal 0)]⟩
     ⟨0, ThreadState.new⟩ ⟨0, ThreadState.new⟩ (.Literal 5) 5 rfl (by simp)⟩

/-- **C5.** `DIV` with evaluated operands `a` and `b`: if `b ≠ 0` it
pushes `a / b` (u64 division) and continues; if `b = 0` the source
computes `a / b` on `u64`, which panics ("attempt to divide by zero") —
an execution error that aborts the thread.  Like any other opcode error
it propagates to a joiner: the final conjunct shows that a `JOIN` whose
child's execution ended in any error `e` itself fails with `e`
(`Spawner::join` propagates both `eyre` errors and task panics through
`handle.await??`). -/
theorem C5_div (fuel : Nat) (vm : Vm) (prog : Program) (ctx ctx₁ ctx₂ : ThreadCtx)
    (ea eb : ValSp) (a b : Word)
    (ha : ThreadCtx.get vm.globals ea ctx = .ok (a, ctx₁))
    (hb : ThreadCtx.get vm.globals eb ctx₁ = .ok (b, ctx₂)) :
    (b ≠ 0 →
      OpCode.execute fuel vm prog (.DIV ea eb) ctx =
        .ok (none, { ctx₂ with state := ctx₂.state.push (a / b) }, vm)) ∧
    (b = 0 →
      OpCode.execute fuel vm prog (.DIV ea eb) ctx =
        .error (.panicked "attempt to divide by zero")) ∧
    (∀ (vmJ : Vm) (ctxJ ctxJ' : ThreadCtx) (et : ValSp) (tid : Word)
        (child : ThreadCtx) (sp' : LocalSpawner) (e : VmError),
      ThreadCtx.get vmJ.globals et ctxJ = .ok (tid, ctxJ') →
      vmJ.spawner.removeThread tid = some (child, sp') →
      ThreadCtx.execute fuel { vmJ with spawner := sp' } prog child = .error e →
      OpCode.execute fuel vmJ prog (.JOIN et) ctxJ = .error e) := by
  refine ⟨?_, ?_, ?_⟩
  · intro hb0
    simp [OpCode.execute, OpCode.executeWith, bind, Except.bind, ha, hb, hb0]
  · intro hb0
    subst hb0
    simp [OpCode.execute, OpCode.executeWith, bind, Except.bind, ha, hb]
  · intro vmJ ctxJ ctxJ' et tid child sp' e heval hrm hrun
    simp [OpCode.execute, OpCode.executeWith, bind, Except.bind, heval, hrm, hrun]

/-- Witness for C5: `DIV 6, 3` pushes `2`; `DIV 6, 0` panics. -/
theorem C5_div_witness :
    OpCode.execute 0 vm0 ⟨[]⟩ (.DIV (.Literal 6) (.Literal 3)) ⟨0, ThreadState.new⟩ =
      .ok (none, ⟨0, { ThreadState.new with stack := [2] }⟩, vm0) ∧
    OpCode.execute 0 vm0 ⟨[]⟩ (.DIV (.Literal 6) (.Literal 0)) ⟨0, ThreadState.new⟩ =
      .error (.panicked "attempt to divide by zero") :=
  ⟨(C5_div 0 vm0 ⟨[]⟩ ⟨0, ThreadState.new⟩ ⟨0, ThreadState.new⟩ ⟨0, ThreadState.new⟩
      (.Literal 6) (.Literal 3) 6 3 rfl rfl).1 (by simp),
   (C5_div 0 vm0 ⟨[]⟩ ⟨0, ThreadState.new⟩ ⟨0, ThreadState.new⟩ ⟨0, ThreadState.new⟩
      (.Literal 6) (.Literal 0) 6 0 rfl rfl).2.1 rfl⟩

/-- **C1.** `FORK(addr)` with the operand evaluating to `target`
(possibly popping the stack — `ctx'` is the parent after operand
evaluation, with its id unchanged): the parent's thread state is cloned
by value, the parent's id is pushed onto the clone's stack, the clone's
instruction pointer is set to `target`
(`{ ctx'.state.push ctx'.id with instruction_pointer := target }` is
exactly that clone); if the target is within the program the spawner is
asked to spawn the clone and the returned child id is pushed onto the
parent's stack before it continues; if the target is out of range the
`FORK` fails with the jump-range error and no child is spawned. -/
theorem C1_fork (fuel : Nat) (vm : Vm) (prog : Program) (ctx ctx' : ThreadCtx)
    (e : ValSp) (target : Word)
    (heval : ThreadCtx.get vm.globals e ctx = .ok (target, ctx')) :
    ctx'.id = ctx.id ∧
    (target < prog.ops.length →
      OpCode.execute fuel vm prog (.FORK e) ctx =
        .ok (none, { ctx' with state := ctx'.state.push (vm.spawner.spawn { ctx'.state.push ctx'.id with instruction_pointer := target }).1 }, { vm with spawner := (vm.spawner.spawn { ctx'.state.push ctx'.id with instruction_pointer := target }).2 })) ∧
    (prog.ops.length ≤ target →
      OpCode.execute fuel vm prog (.FORK e) ctx =
        .error (.err (jumpRangeMsg target prog.ops.length))) := by
  refine ⟨ThreadCtx.get_id e ctx target ctx' heval, ?_, ?_⟩
  · intro hlt
    simp [OpCode.execute, OpCode.executeWith, bind, Except.bind, heval,
      ThreadState.jump_to, hlt, LocalSpawner.spawn, ThreadState.push]
  · intro hle
    simp [OpCode.execute, OpCode.executeWith, bind, Except.bind, heval,
      ThreadState.jump_to, Nat.not_lt.mpr hle]

/-- Witness for C1: a parent with id 7 forks target 0 in a one-opcode
program; the fresh spawner returns child id 0, which lands on the
parent's stack, and the registered clone carries the parent's id 7. -/
theorem C1_fork_witness :
    OpCode.execute 0 vm0 ⟨[.NOP (.Literal 0)]⟩ (.FORK (.Literal 0)) ⟨7, ThreadState.new⟩ =
      .ok (none, ⟨7, { ThreadState.new with stack := [0] }⟩, { vm0 with spawner := (vm0.spawner.spawn { stack := [7], memory := Memory.empty, instruction_pointer := 0 }).2 }) :=
  (C1_fork 0 vm0 ⟨[.NOP (.Literal 0)]⟩ ⟨7, ThreadState.new⟩ ⟨7, ThreadState.new⟩
    (.Literal 0) 0 rfl).2.1 (by simp)

/-- **C2.** `JOIN(tid)` with the operand evaluating to `tid`: if the
spawner's table has no entry for `tid`, the `JOIN` fails with
"Joined unknown thread: tid".  If it does, the handle is *removed*
(`sp'.threads tid = none` — so a second `JOIN` of the same id finds the
table empty and fails by the first conjunct: ids join at most once);
then if the child ended with `Exit(code)` the joining thread also ends
with `Exit(code)`, and if it ended with `Finish(value)` the value is
pushed onto the joiner's stack and the joiner continues. -/
theorem C2_join (fuel : Nat) (vm : Vm) (prog : Program) (ctx ctx' : ThreadCtx)
    (e : ValSp) (tid : Word)
    (heval : ThreadCtx.get vm.globals e ctx = .ok (tid, ctx')) :
    (vm.spawner.threads tid = none →
      OpCode.execute fuel vm prog (.JOIN e) ctx = .error (.err (joinedUnknownMsg tid))) ∧
    (∀ (child : ThreadCtx) (sp' : LocalSpawner),
      vm.spawner.removeThread tid = some (child, sp') →
      sp'.threads tid = none ∧
      (∀ (vm' : Vm) (c : Word),
        ThreadCtx.execute fuel { vm with spawner := sp' } prog child = .ok (.Exit c, vm') →
        OpCode.execute fuel vm prog (.JOIN e) ctx = .ok (some (.Exit c), ctx', vm')) ∧
      (∀ (vm' : Vm) (v : Word),
        ThreadCtx.execute fuel { vm with spawner := sp' } prog child = .ok (.Finish v, vm') →
        OpCode.execute fuel vm prog (.JOIN e) ctx =
          .ok (none, { ctx' with state := ctx'.state.push v }, vm'))) := by
  constructor
  · intro hnone
    have hrm : vm.spawner.removeThread tid = none := by
      simp [LocalSpawner.removeThread, hnone]
    simp [OpCode.execute, OpCode.executeWith, bind, Except.bind, heval, hrm]
  · intro child sp' hrm
    refine ⟨?_, ?_, ?_⟩
    · unfold LocalSpawner.removeThread at hrm
      split at hrm
      · exact absurd hrm (by simp)
      · simp only [Option.some.injEq, Prod.mk.injEq] at hrm
        rw [← hrm.2]
        simp
    · intro vm' c hrun
      simp [OpCode.execute, OpCode.executeWith, bind, Except.bind, heval, hrm, hrun]
    · intro vm' v hrun
      simp [OpCode.execute, OpCode.executeWith, bind, Except.bind, heval, hrm, hrun]

/-- Witness for C2: joining id 5 against a fresh spawner (empty table)
fails with "Joined unknown thread: 5". -/
theorem C2_join_witness :
    OpCode.execute 0 vm0 ⟨[]⟩ (.JOIN (.Literal 5)) ⟨0, ThreadState.new⟩ =
      .error (.err (joinedUnknownMsg 5)) :=
  (C2_join 0 vm0 ⟨[]⟩ ⟨0, ThreadState.new⟩ ⟨0, ThreadState.new⟩ (.Literal 5) 5 rfl).1 rfl

/-- **C6 (amended).** The forked child's initial stack is the parent's
stack copied by value with the **parent's** thread id on top (the code
runs `fork_state.push(ctx.id)` where `ctx` is the parent; the spec's §3
wording "receives its own id" contradicts its §4.3 and the code), and
its instruction pointer is the fork target. -/
theorem C6_fork_child_state (fuel : Nat) (vm : Vm) (prog : Program) (ctx ctx' : ThreadCtx)
    (e : ValSp) (target : Word)
    (heval : ThreadCtx.get vm.globals e ctx = .ok (target, ctx'))
    (hlt : target < prog.ops.length) :
    ctx'.id = ctx.id ∧
    OpCode.execute fuel vm prog (.FORK e) ctx =
      .ok (none, { ctx' with state := ctx'.state.push vm.spawner.counter }, { vm with spawner := (vm.spawner.spawn { stack := ctx'.state.stack ++ [ctx'.id], memory := ctx'.state.memory, instruction_pointer := target }).2 }) ∧
    (vm.spawner.spawn { stack := ctx'.state.stack ++ [ctx'.id], memory := ctx'.state.memory, instruction_pointer := target }).2.threads vm.spawner.counter =
      some { id := vm.spawner.counter, state := { stack := ctx'.state.stack ++ [ctx'.id], memory := ctx'.state.memory, instruction_pointer := target } } := by
  refine ⟨ThreadCtx.get_id e ctx target ctx' heval, ?_, ?_⟩
  · simp [OpCode.execute, OpCode.executeWith, bind, Except.bind, heval,
      ThreadState.jump_to, hlt, LocalSpawner.spawn, ThreadState.push]
  · simp [LocalSpawner.spawn]

/-- Witness for C6 (amended): parent id 7, fresh spawner; the clone
registered under the fresh child id 0 carries stack `[7]`. -/
theorem C6_fork_child_state_witness :
    OpCode.execute 0 vm0 ⟨[.NOP (.Literal 0)]⟩ (.FORK (.Literal 0)) ⟨7, ThreadState.new⟩ =
      .ok (none, ⟨7, { ThreadState.new with stack := [0] }⟩, { vm0 with spawner := (vm0.spawner.spawn { stack := [7], memory := Memory.empty, instruction_pointer := 0 }).2 }) ∧
    (vm0.spawner.spawn { stack := [7], memory := Memory.empty, instruction_pointer := 0 }).2.threads 0 =
      some { id := 0, state := { stack := [7], memory := Memory.empty, instruction_pointer := 0 } } :=
  ⟨((C6_fork_child_state 0 vm0 ⟨[.NOP (.Literal 0)]⟩ ⟨7, ThreadState.new⟩
      ⟨7, ThreadState.new⟩ (.Literal 0) 0 rfl (by simp)).2.1),
   ((C6_fork_child_state 0 vm0 ⟨[.NOP (.Literal 0)]⟩ ⟨7, ThreadState.new⟩
      ⟨7, ThreadState.new⟩ (.Literal 0) 0 rfl (by simp)).2.2)⟩

/-- Counterexample to **C6 as stated**: parent id 7 executes
`FORK 0` against a fresh spawner in a one-opcode program.  The spawned
child is registered under its own id 0, but the top of its initial
stack is 7 — the *parent's* id — and `7 ≠ 0`, refuting "the fork
immediately receives its own id on top of the stack". -/
theorem C6_counterexample :
    (OpCode.execute 0 vm0 ⟨[.NOP (.Literal 0)]⟩ (.FORK (.Literal 0)) ⟨7, ThreadState.new⟩).map
        (fun r => (r.1, r.2.1.state.stack, (r.2.2.spawner.threads 0).map fun c => (c.id, c.state.stack)))
      = .ok (none, [0], some (0, [7])) ∧
    ([7] : List Word).getLast? = some 7 ∧ (7 : Word) ≠ 0 :=
  ⟨rfl, rfl, by simp⟩

/-- **C10.** `HostCtx::execute` spawns the root thread and joins it; a
root that terminates with `Finish(v)` makes the program return `v`,
exactly as an `Exit(v)` root would. -/
theorem C10_root_finish (fuel : Nat) (prog : Program) :
    (∀ (vmA : Vm) (v : Word),
      processJoin fuel { globals := Memory.empty, spawner := (LocalSpawner.new.spawn ThreadState.new).2 } prog (LocalSpawner.new.spawn ThreadState.new).1 = .ok (.Finish v, vmA) →
      HostCtx.execute fuel prog = .ok v) ∧
    (∀ (vmA : Vm) (c : Word),
      processJoin fuel { globals := Memory.empty, spawner := (LocalSpawner.new.spawn ThreadState.new).2 } prog (LocalSpawner.new.spawn ThreadState.new).1 = .ok (.Exit c, vmA) →
      HostCtx.execute fuel prog = .ok c) := by
  constructor
  · intro vmA v h
    simp [HostCtx.execute, h]
  · intro vmA c h
    simp [HostCtx.execute, h]

/-- Witness for C10: the one-opcode program `THREAD_FINISH 42` makes
the root thread finish with 42 and the process return 42. -/
theorem C10_root_finish_witness :
    HostCtx.execute 2 ⟨[.THREAD_FINISH (.Literal 42)]⟩ = .ok 42 :=
  (C10_root_finish 2 ⟨[.THREAD_FINISH (.Literal 42)]⟩).1 _ 42 rfl

/-!
## Lemmas about pass one of the assembler (for C8)
-/

theorem dropPre_single {c : Char} {s r : List Char} :
    dropPre [c] s = some r ↔ s = c :: r := by
  cases s with
  | nil => simp [dropPre]
  | cons c' cs =>
    simp only [dropPre]
    by_cases hc : c' = c
    · subst hc
      simp [dropPre]
    · simp [hc]

/-- Labels already recorded survive the rest of pass one. -/
theorem buildLabelsAux_preserves :
    ∀ (lines : List (List Char)) (seen : Word) (acc m : Labels),
      buildLabelsAux lines seen acc = .ok m →
      ∀ (L : List Char) (k : Word), lookupLabel acc L = some k → lookupLabel m L = some k := by
  intro lines
  induction lines with
  | nil =>
    intro seen acc m h L k hk
    simp only [buildLabelsAux, Except.ok.injEq] at h
    rw [← h]
    exact hk
  | cons line rest ih =>
    intro seen acc m h L k hk
    simp only [buildLabelsAux] at h
    split at h
    · rename_i label hd
      split at h
      · exact absurd h (by simp)
      · rename_i hl
        refine ih _ _ _ h L k ?_
        by_cases he : label = L
        · subst he
          rw [hl] at hk
          exact absurd hk (by simp)
        · simpa [lookupLabel, he] using hk
    · exact ih _ _ _ h L k hk

/-- Once a label is present in the accumulator, a later declaration of
the same label makes pass one fail. -/
theorem buildLabelsAux_ne_ok_of_mem :
    ∀ (lines : List (List Char)) (seen : Word) (acc : Labels) (L : List Char),
      lookupLabel acc L ≠ none →
      (∃ j : Nat, lines[j]? = some (':' :: L)) →
      ∀ m, buildLabelsAux lines seen acc ≠ .ok m := by
  intro lines
  induction lines with
  | nil =>
    intro seen acc L hacc hj m
    obtain ⟨j, hjeq⟩ := hj
    simp at hjeq
  | cons line rest ih =>
    intro seen acc L hacc hj m h
    obtain ⟨j, hjeq⟩ := hj
    simp only [buildLabelsAux] at h
    split at h
    · rename_i label hd
      split at h
      · exact absurd h (by simp)
      · rename_i hl
        cases j with
        | zero =>
          simp only [List.getElem?_cons_zero, Option.some.injEq] at hjeq
          rw [hjeq] at hd
          rw [dropPre_single.mpr rfl] at hd
          have hlab : label = L := by simpa using hd.symm
          subst hlab
          exact hacc hl
        | succ j' =>
          refine ih seen _ L ?_ ⟨j', by simpa using hjeq⟩ m h
          by_cases he : label = L
          · subst he
            simp [lookupLabel]
          · simpa [lookupLabel, he] using hacc
    · rename_i hd
      cases j with
      | zero =>
        simp only [List.getElem?_cons_zero, Option.some.injEq] at hjeq
        rw [hjeq] at hd
        rw [dropPre_single.mpr rfl] at hd
        exact Option.noConfusion hd
      | succ j' =>
        exact ih (seen + 1) acc L hacc ⟨j', by simpa using hjeq⟩ m h

/-- Declaring the same label twice makes pass one fail. -/
theorem buildLabelsAux_dup_ne_ok :
    ∀ (lines : List (List Char)) (seen : Word) (acc : Labels) (j1 j2 : Nat) (L : List Char),
      j1 < j2 →
      lines[j1]? = some (':' :: L) → lines[j2]? = some (':' :: L) →
      ∀ m, buildLabelsAux lines seen acc ≠ .ok m := by
  intro lines
  induction lines with
  | nil =>
    intro seen acc j1 j2 L hlt h1 h2 m
    simp at h1
  | cons line rest ih =>
    intro seen acc j1 j2 L hlt h1 h2 m h
    simp only [buildLabelsAux] at h
    split at h
    · rename_i label hd
      split at h
      · exact absurd h (by simp)
      · rename_i hl
        cases j1 with
        | zero =>
          simp only [List.getElem?_cons_zero, Option.some.injEq] at h1
          rw [h1] at hd
          rw [dropPre_single.mpr rfl] at hd
          have hlab : label = L := by simpa using hd.symm
          subst hlab
          cases j2 with
          | zero => omega
          | succ j2' =>
            refine buildLabelsAux_ne_ok_of_mem rest seen _ label ?_
              ⟨j2', by simpa using h2⟩ m h
            simp [lookupLabel]
        | succ j1' =>
          cases j2 with
          | zero => omega
          | succ j2' =>
            exact ih seen _ j1' j2' L (by omega) (by simpa using h1) (by simpa using h2) m h
    · rename_i hd
      cases j1 with
      | zero =>
        simp only [List.getElem?_cons_zero, Option.some.injEq] at h1
        rw [h1] at hd
        rw [dropPre_single.mpr rfl] at hd
        exact Option.noConfusion hd
      | succ j1' =>
        cases j2 with
        | zero => omega
        | succ j2' =>
          exact ih (seen + 1) acc j1' j2' L (by omega) (by simpa using h1) (by simpa using h2) m h

/-- Pass one either succeeds or fails with a duplicate-label error (the
only `ensure!` in it). -/
theorem buildLabelsAux_ok_or_dup :
    ∀ (lines : List (List Char)) (seen : Word) (acc : Labels),
      (∃ m, buildLabelsAux lines seen acc = .ok m) ∨
      (∃ L, buildLabelsAux lines seen acc =
        .error (.err ("Duplicate label: " ++ String.mk L))) := by
  intro lines
  induction lines with
  | nil =>
    intro seen acc
    exact .inl ⟨acc, rfl⟩
  | cons line rest ih =>
    intro seen acc
    cases hd : dropPre [':'] line with
    | none =>
      simp only [buildLabelsAux, hd]
      exact ih (seen + 1) acc
    | some label =>
      cases hl : lookupLabel acc label with
      | some w =>
        simp only [buildLabelsAux, hd, hl]
        exact .inr ⟨label, rfl⟩
      | none =>
        simp only [buildLabelsAux, hd, hl]
        exact ih seen ((label, seen) :: acc)

/-- The heart of C8: when pass one succeeds, the label declared at
relevant line `j` maps to `seen₀ +` the number of opcode lines strictly
before `j`. -/
theorem buildLabelsAux_lookup :
    ∀ (lines : List (List Char)) (seen : Word) (acc m : Labels),
      buildLabelsAux lines seen acc = .ok m →
      ∀ (j : Nat) (L : List Char), lines[j]? = some (':' :: L) →
      lookupLabel m L = some (seen + countOps (lines.take j)) := by
  intro lines
  induction lines with
  | nil =>
    intro seen acc m h j L hj
    simp at hj
  | cons line rest ih =>
    intro seen acc m h j L hj
    simp only [buildLabelsAux] at h
    split at h
    · rename_i label hd
      split at h
      · exact absurd h (by simp)
      · rename_i hl
        cases j with
        | zero =>
          simp only [List.getElem?_cons_zero, Option.some.injEq] at hj
          rw [hj] at hd
          rw [dropPre_single.mpr rfl] at hd
          have hlab : label = L := by simpa using hd.symm
          subst hlab
          have hacc : lookupLabel ((label, seen) :: acc) label = some seen := by
            simp [lookupLabel]
          have hfinal := buildLabelsAux_preserves rest seen _ m h label seen hacc
          rw [hfinal]
          simp [countOps]
        | succ j' =>
          have hrec := ih seen ((label, seen) :: acc) m h j' L (by simpa using hj)
          have hlab : isLabelLine line = true := by
            simp [isLabelLine, hd]
          have hcount : countOps ((line :: rest).take (j' + 1)) =
              countOps (rest.take j') := by
            simp [countOps, List.take_succ_cons, List.filter, hlab]
          rw [hcount, hrec]
    · rename_i hd
      cases j with
      | zero =>
        simp only [List.getElem?_cons_zero, Option.some.injEq] at hj
        rw [hj] at hd
        rw [dropPre_single.mpr rfl] at hd
        exact Option.noConfusion hd
      | succ j' =>
        have hrec := ih (seen + 1) acc m h j' L (by simpa using hj)
        have hlab : isLabelLine line = false := by
          simp [isLabelLine, hd]
        have hcount : countOps ((line :: rest).take (j' + 1)) =
            countOps (rest.take j') + 1 := by
          simp [countOps, List.take_succ_cons, List.filter, hlab]
        rw [hcount, hrec]
        have harith : seen + 1 + countOps (rest.take j') =
            seen + (countOps (rest.take j') + 1) := by ring
        rw [harith]

/-- The label branch of `ValSp::parse`. -/
theorem parse_label (labels : Labels) (fuel : Nat) (L : List Char) :
    ValSp.parse labels (fuel + 1) (':' :: L) =
      match lookupLabel labels L with
      | some v => .ok (.Literal v)
      | none => .error (.err ("Unknown label: " ++ String.mk L)) := by
  have : dropPre [':'] (':' :: L) = some L := dropPre_single.mpr rfl
  simp only [ValSp.parse, this]

/-- **C8.** For every program (given as its list of source lines) whose
label pass succeeds with table `m`: parsing the operand `:L` for the
label declared at relevant line `j` yields `Literal k` where `k` is the
number of non-label relevant (non-blank, non-comment) lines strictly
before that declaration; parsing `:L` for a label not in the table
fails with "Unknown label"; and if some label is declared twice, the
label pass fails with a "Duplicate label" error. -/
theorem C8_labels (lines : List (List Char)) :
    (∀ m, buildLabels lines = .ok m →
      (∀ (fuel j : Nat) (L : List Char),
        (relevantLines lines)[j]? = some (':' :: L) →
        ValSp.parse m (fuel + 1) (':' :: L) =
          .ok (.Literal (countOps ((relevantLines lines).take j)))) ∧
      (∀ (fuel : Nat) (L : List Char), lookupLabel m L = none →
        ValSp.parse m (fuel + 1) (':' :: L) =
          .error (.err ("Unknown label: " ++ String.mk L)))) ∧
    (∀ (j1 j2 : Nat) (L : List Char), j1 < j2 →
      (relevantLines lines)[j1]? = some (':' :: L) →
      (relevantLines lines)[j2]? = some (':' :: L) →
      ∃ L', buildLabels lines = .error (.err ("Duplicate label: " ++ String.mk L'))) := by
  constructor
  · intro m hm
    constructor
    · intro fuel j L hj
      have hk := buildLabelsAux_lookup (relevantLines lines) 0 [] m hm j L hj
      rw [parse_label, hk]
      simp
    · intro fuel L hnone
      rw [parse_label, hnone]
  · intro j1 j2 L hlt h1 h2
    rcases buildLabelsAux_ok_or_dup (relevantLines lines) 0 [] with ⟨m, hok⟩ | ⟨L', herr⟩
    · exact absurd hok (buildLabelsAux_dup_ne_ok (relevantLines lines) 0 [] j1 j2 L hlt h1 h2 m)
    · exact ⟨L', herr⟩

/-- Witness for C8 on the program
`["PUSH 1", "# note", ":a", "   ", "ADD 1, 2", ":b"]`: the relevant
lines are `["PUSH 1", ":a", "ADD 1, 2", ":b"]`; `:a` (relevant line 1)
resolves to `Literal 1`, `:b` (relevant line 3) to `Literal 2`, an
undeclared `:z` fails, and declaring `:a` twice fails with
"Duplicate label". -/
theorem C8_labels_witness :
    ValSp.parse [("b".toList, 2), ("a".toList, 1)] 1 ":a".toList = .ok (.Literal 1) ∧
    ValSp.parse [("b".toList, 2), ("a".toList, 1)] 1 ":b".toList = .ok (.Literal 2) ∧
    ValSp.parse [("b".toList, 2), ("a".toList, 1)] 1 ":z".toList =
      .error (.err ("Unknown label: " ++ String.mk "z".toList)) ∧
    (∃ L', buildLabels (["PUSH 1", ":a", ":a"].map String.toList) =
      .error (.err ("Duplicate label: " ++ String.mk L'))) :=
  ⟨((C8_labels (["PUSH 1", "# note", ":a", "   ", "ADD 1, 2", ":b"].map String.toList)).1
      _ rfl).1 0 1 "a".toList rfl,
   ((C8_labels (["PUSH 1", "# note", ":a", "   ", "ADD 1, 2", ":b"].map String.toList)).1
      _ rfl).1 0 3 "b".toList rfl,
   ((C8_labels (["PUSH 1", "# note", ":a", "   ", "ADD 1, 2", ":b"].map String.toList)).1
      _ rfl).2 0 "z".toList rfl,
   (C8_labels (["PUSH 1", ":a", ":a"].map String.toList)).2 1 2 "a".toList
     (by omega) rfl rfl⟩

/-!
## The ValSp grammar (for C9)
-/

/-- `str::starts_with`, phrased through `strip_prefix`. -/
def startsWithB (p s : List Char) : Bool := (dropPre p s).isSome

/-- Does the token end in `]` (phrased through `strip_suffix("]")`)? -/
def endsRB (s : List Char) : Bool := (stripRBracket s).isSome

/-- ASCII decimal digit. -/
def isDecDigit (c : Char) : Bool := '0' ≤ c && c ≤ '9'

/-- ASCII hex digit as `from_str_radix(_, 16)` accepts it. -/
def isHexDigit (c : Char) : Bool :=
  isDecDigit c || ('a' ≤ c && c ≤ 'f') || ('A' ≤ c && c ≤ 'F')

/-- The nine operand forms exactly as the claim lists them: `:name`,
`$pop`, `$pop[E]`, `$peek`, `$mem[E]`, `$gmem[E]`, `$tid`, `0x…` hex
literals, decimal literals. -/
def claimedFormB (s : List Char) : Bool :=
  startsWithB [':'] s ||
  s == "$pop".toList ||
  (startsWithB "$pop[".toList s && endsRB s) ||
  s == "$peek".toList ||
  (startsWithB "$mem[".toList s && endsRB s) ||
  (startsWithB "$gmem[".toList s && endsRB s) ||
  s == "$tid".toList ||
  (match dropPre "0x".toList s with
    | some h => !h.isEmpty && h.all isHexDigit
    | none => false) ||
  (!s.isEmpty && s.all isDecDigit)

/-- Optional leading `+`, then a nonempty run of decimal digits: the
shape Rust's `u64::from_str` accepts (up to overflow). -/
def decimalShape (s : List Char) : Bool :=
  !(stripPlus s).isEmpty && (stripPlus s).all isDecDigit

/-- The operand forms as the code actually matches them (the amended
claim): `$pop` is a *prefix* match, and numeric literals may carry a
leading `+` after the optional `0x`. -/
def amendedFormB (s : List Char) : Bool :=
  startsWithB [':'] s ||
  startsWithB "$pop".toList s ||
  s == "$peek".toList ||
  (startsWithB "$mem[".toList s && endsRB s) ||
  (startsWithB "$gmem[".toList s && endsRB s) ||
  s == "$tid".toList ||
  startsWithB "0x".toList s ||
  decimalShape s

theorem startsWithB_false {p s : List Char} (h : startsWithB p s = false) :
    dropPre p s = none := by
  unfold startsWithB at h
  cases hd : dropPre p s with
  | none => rfl
  | some r => rw [hd] at h; simp at h

theorem dropPre_append_eq {p s r : List Char} (h : dropPre p s = some r) : s = p ++ r := by
  induction p generalizing s with
  | nil => simpa [dropPre] using h
  | cons c ps ih =>
    cases s with
    | nil => simp [dropPre] at h
    | cons c' cs =>
      simp only [dropPre] at h
      split at h
      · rename_i hc
        subst hc
        simp [ih h]
      · exact absurd h (by simp)

theorem dropPre_self_append (p r : List Char) : dropPre p (p ++ r) = some r := by
  induction p with
  | nil => simp [dropPre]
  | cons c ps ih => simp [dropPre, ih]

theorem stripRBracket_some_iff {t r : List Char} :
    stripRBracket t = some r ↔ t = r ++ [']'] := by
  constructor
  · intro h
    unfold stripRBracket at h
    split at h
    · rename_i rest heq
      simp only [Option.some.injEq] at h
      have := congrArg List.reverse heq
      simp at this
      rw [this, ← h]
    · exact absurd h (by simp)
  · intro h
    subst h
    unfold stripRBracket
    simp

/-- Prepending cannot create a closing bracket: if `pre ++ t` does not
end in `]` then neither does `t` (as `strip_suffix` sees it). -/
theorem stripRBracket_none_of_app {pre t : List Char}
    (h : endsRB (pre ++ t) = false) : stripRBracket t = none := by
  cases hrb : stripRBracket t with
  | none => rfl
  | some r =>
    exfalso
    have ht : t = r ++ [']'] := stripRBracket_some_iff.1 hrb
    have : stripRBracket (pre ++ t) = some (pre ++ r) := by
      rw [stripRBracket_some_iff, ht]
      simp
    rw [endsRB, this] at h
    simp at h

theorem indexed_expr_none {e s : List Char} (h : dropPre e s = none) :
    indexed_expr e s = .ok none := by
  unfold indexed_expr
  rw [h]

theorem indexed_expr_flat {e s w : List Char} (h : dropPre e s = some w)
    (hw : dropPre ['['] w = none) : indexed_expr e s = .ok (some none) := by
  unfold indexed_expr
  simp only [h]
  unfold strip_square_braces
  simp only [hw]

theorem indexed_expr_noclose {e s t : List Char} (h : dropPre e s = some ('[' :: t))
    (ht : stripRBracket t = none) :
    indexed_expr e s = .error (.err ("Expected ']' at end of: " ++ String.mk ('[' :: t))) := by
  unfold indexed_expr
  simp only [h]
  unfold strip_square_braces
  have h1 : dropPre ['['] ('[' :: t) = some t := by simp [dropPre]
  simp only [h1, ht]

theorem digitVal_dec {c : Char} {d : Nat} (h : digitVal c = some d) (hd : d < 10) :
    isDecDigit c = true := by
  unfold digitVal at h
  split at h
  · rename_i hc
    simp [isDecDigit]
    exact ⟨by exact_mod_cast hc.1, by exact_mod_cast hc.2⟩
  · split at h
    · rename_i hc
      simp only [Option.some.injEq] at h
      omega
    · split at h
      · rename_i hc
        simp only [Option.some.injEq] at h
        omega
      · exact absurd h (by simp)

theorem digitsValAux_all_dec {n : Nat} :
    ∀ (d : List Char) (acc : Nat), digitsValAux 10 acc d = some n → d.all isDecDigit = true := by
  intro d
  induction d with
  | nil => intro acc h; rfl
  | cons c rest ih =>
    intro acc h
    simp only [digitsValAux] at h
    split at h
    · rename_i dv hdv
      split at h
      · rename_i hlt
        simp only [List.all_cons, Bool.and_eq_true]
        exact ⟨digitVal_dec hdv hlt, ih _ h⟩
      · exact absurd h (by simp)
    · exact absurd h (by simp)

/-- If a token does not have the decimal shape, Rust's `u64` parser
rejects it. -/
theorem rustParseU64_ten_shape {s : List Char} (h : decimalShape s = false) :
    rustParseU64 10 s = none := by
  unfold rustParseU64
  cases hdv : digitsVal 10 (stripPlus s) with
  | none => rfl
  | some n =>
    exfalso
    unfold digitsVal at hdv
    split at hdv
    · exact Option.noConfusion hdv
    · rename_i hne
      have hall := digitsValAux_all_dec (stripPlus s) 0 hdv
      rw [decimalShape] at h
      simp only [Bool.and_eq_false_iff] at h
      rcases h with h | h
      · simp only [Bool.not_eq_false'] at h
        rw [List.isEmpty_iff] at h
        exact hne h
      · rw [hall] at h
        exact Bool.noConfusion h

/-- Counterexample to **C9 as stated**: three tokens that match none of
the claim's nine forms yet parse successfully — `$popx` (the `$pop`
match is a prefix match) parses as `Pop`; `+5` and `0x+a` (Rust's
integer parsers accept one leading `+`) parse as literals `5` and `10`. -/
theorem C9_counterexample :
    ValSp.parse [] 10 "$popx".toList = .ok .Pop ∧
    claimedFormB "$popx".toList = false ∧
    ValSp.parse [] 10 "+5".toList = .ok (.Literal 5) ∧
    claimedFormB "+5".toList = false ∧
    ValSp.parse [] 10 "0x+a".toList = .ok (.Literal 10) ∧
    claimedFormB "0x+a".toList = false :=
  ⟨rfl, by decide, rfl, by decide, rfl, by decide⟩

/-- **C9 (amended).** `ValSp` parsing accepts only tokens of the forms
`:name`, `$pop…` (a *prefix* match: `$pop` exactly, `$pop[E]`, and any
other token starting with `$pop` is accepted as `Pop` when no `[`
follows), `$peek`, `$mem[E]`, `$gmem[E]`, `$tid`, `0x…` hex literals,
and decimal literals — both numeric forms allowing one leading `+`:
every token matching none of these forms fails to parse. -/
theorem C9_reject (labels : Labels) (fuel : Nat) (s : List Char)
    (hform : amendedFormB s = false) :
    ∃ e, ValSp.parse labels (fuel + 1) s = .error e := by
  simp only [amendedFormB, Bool.or_eq_false_iff] at hform
  obtain ⟨⟨⟨⟨⟨⟨⟨h1, h2⟩, h3⟩, h4⟩, h5⟩, h6⟩, h7⟩, h8⟩ := hform
  have hd1 : dropPre [':'] s = none := startsWithB_false h1
  have hpop : indexed_expr "$pop".toList s = .ok none :=
    indexed_expr_none (startsWithB_false h2)
  have hpeek : ¬ s = "$peek".toList := by
    simpa using h3
  have htid : ¬ s = "$tid".toList := by
    simpa using h6
  have hd0x : dropPre ['0', 'x'] s = none := startsWithB_false h7
  have hdec : rustParseU64 10 s = none := rustParseU64_ten_shape h8
  cases hdm : dropPre "$mem".toList s with
  | some w =>
    cases w with
    | nil =>
      have hmem : indexed_expr "$mem".toList s = .ok (some none) :=
        indexed_expr_flat hdm rfl
      exact ⟨.err "$mem requires index",
        by simp only [ValSp.parse, hd1, hpop, if_neg hpeek, hmem]⟩
    | cons c t =>
      by_cases hc : c = '['
      · subst hc
        have hs : s = "$mem[".toList ++ t := by
          have := dropPre_append_eq hdm
          simpa using this
        have hsw : startsWithB "$mem[".toList s = true := by
          rw [hs, startsWithB, dropPre_self_append]
          rfl
        have hend : endsRB s = false := by
          rcases Bool.and_eq_false_iff.1 h4 with h | h
          · rw [hsw] at h; exact Bool.noConfusion h
          · exact h
        have hrb : stripRBracket t = none := by
          rw [hs] at hend
          exact stripRBracket_none_of_app hend
        have hmem := indexed_expr_noclose hdm hrb
        exact ⟨.err ("Expected ']' at end of: " ++ String.mk ('[' :: t)),
          by simp only [ValSp.parse, hd1, hpop, if_neg hpeek, hmem]⟩
      · have hmem : indexed_expr "$mem".toList s = .ok (some none) :=
          indexed_expr_flat hdm (by simp [dropPre, hc])
        exact ⟨.err "$mem requires index",
          by simp only [ValSp.parse, hd1, hpop, if_neg hpeek, hmem]⟩
  | none =>
    have hmem : indexed_expr "$mem".toList s = .ok none := indexed_expr_none hdm
    cases hdg : dropPre "$gmem".toList s with
    | some w =>
      cases w with
      | nil =>
        have hgmem : indexed_expr "$gmem".toList s = .ok (some none) :=
          indexed_expr_flat hdg rfl
        exact ⟨.err "$gmem requires index",
          by simp only [ValSp.parse, hd1, hpop, if_neg hpeek, hmem, hgmem]⟩
      | cons c t =>
        by_cases hc : c = '['
        · subst hc
          have hs : s = "$gmem[".toList ++ t := by
            have := dropPre_append_eq hdg
            simpa using this
          have hsw : startsWithB "$gmem[".toList s = true := by
            rw [hs, startsWithB, dropPre_self_append]
            rfl
          have hend : endsRB s = false := by
            rcases Bool.and_eq_false_iff.1 h5 with h | h
            · rw [hsw] at h; exact Bool.noConfusion h
            · exact h
          have hrb : stripRBracket t = none := by
            rw [hs] at hend
            exact stripRBracket_none_of_app hend
          have hgmem := indexed_expr_noclose hdg hrb
          exact ⟨.err ("Expected ']' at end of: " ++ String.mk ('[' :: t)),
            by simp only [ValSp.parse, hd1, hpop, if_neg hpeek, hmem, hgmem]⟩
        · have hgmem : indexed_expr "$gmem".toList s = .ok (some none) :=
            indexed_expr_flat hdg (by simp [dropPre, hc])
          exact ⟨.err "$gmem requires index",
            by simp only [ValSp.parse, hd1, hpop, if_neg hpeek, hmem, hgmem]⟩
    | none =>
      have hgmem : indexed_expr "$gmem".toList s = .ok none := indexed_expr_none hdg
      have hlit : parse_literal s =
          .error (.err ("Could not parse as literal value: " ++ String.mk s)) := by
        unfold parse_literal
        simp only [hd0x]
        simp only [hdec]
      exact ⟨.err ("Could not parse as literal value: " ++ String.mk s),
        by simp only [ValSp.parse, hd1, hpop, if_neg hpeek, hmem, hgmem, if_neg htid, hlit]⟩

/-- Witness for C9 (amended): the token `blah` matches none of the
amended forms and fails to parse. -/
theorem C9_reject_witness :
    amendedFormB "blah".toList = false ∧
    ∃ e, ValSp.parse [] 1 "blah".toList = .error e :=
  ⟨by decide, C9_reject [] 0 "blah".toList (by decide)⟩

end Flock
